import Mathlib

/-!
Shallow embedding of the revenue aggregation and reconciliation pipeline of
the revenue-dashboard repository (the `app/api/revenue/route.ts` route and its
newer optimized variant).  The pure core is embedded faithfully:

* `convertToPacificTime` — the timestamp → "YYYY-MM-DD" day-key normalizer of
  the optimized route (validity guard, format guard, try/catch fallback to the
  current processing day).  The civil-calendar computation performed by
  `Intl.DateTimeFormat` with `timeZone: "America/Los_Angeles"` is abstracted
  as a function parameter `pacificFormat : Int → String`; ECMAScript's
  `format` throws a `RangeError` on an invalid time value, which is modelled
  by `intlFormatPacific` returning `Except.error`.
* `getStripeRevenue` — classification and per-day aggregation of balance
  transactions (`amount > 0`, type `"charge"`/`"payment"`, currency scaling,
  day key from `transaction.created`), with JS `Map` semantics modelled by
  association lists with last-write-wins lookup and in-place overwrite.
* `combineRecentRevenueData` — the per-day merge of the two accounts' daily
  revenue with running cumulative totals.
* The `GET` handler's pure data flow — duplicate-date filtering against the
  historical CSV ledger, seeding of cumulative totals from the last
  historical entry, concatenation of historical and recent data, and the
  today-snapshot selection.

Money amounts are JS numbers holding sums of integer-divided-by-100 values;
they are modelled as `Rat` (exact arithmetic).  `List.dedup` retains a
different occurrence of each duplicate than a JS `Set` does, but the date
list is sorted immediately afterwards and its elements are distinct, so the
sorted result coincides with the source's.
-/

namespace RevDash

/-- A Stripe balance transaction, restricted to the fields the pipeline reads:
`type`, `amount` (signed, minor currency units), `currency`, `created` and
`available_on` (epoch seconds). -/
structure BalanceTransaction where
  type : String
  amount : Int
  currency : String
  created : Int
  available_on : Int
deriving Repr, DecidableEq

/-- `interface DailyRevenue` (the optional, never-written `cumulative_amount`
field is omitted). -/
structure DailyRevenue where
  date : String
  amount : Rat
deriving Repr, DecidableEq

/-- `interface CombinedRevenueData`. -/
structure CombinedRevenueData where
  date : String
  amount_interview_coder : Rat
  cumulative_amount_interview_coder : Rat
  amount_cluely : Rat
  cumulative_amount_cluely : Rat
  total_daily_revenue : Rat
  total_cumulative_revenue : Rat
deriving Repr, DecidableEq

/-! ### Timezone normalizer (`convertToPacificTime`, optimized route) -/

/-- An ECMAScript time value is valid iff its magnitude in milliseconds is at
most 8.64e15; `new Date(timestamp * 1000)` is an Invalid Date outside that
range and `isNaN(date.getTime())` detects exactly this. -/
def dateIsValid (timestamp : Int) : Bool :=
  (timestamp * 1000).natAbs ≤ 8640000000000000

/-- The `/^\d\x7b4\x7d-\d\x7b2\x7d-\d\x7b2\x7d$/` result-format check. -/
def isValidDateFormat (s : String) : Bool :=
  match s.toList with
  | [y1, y2, y3, y4, h1, m1, m2, h2, d1, d2] =>
    y1.isDigit && y2.isDigit && y3.isDigit && y4.isDigit && (h1 == '-') &&
      m1.isDigit && m2.isDigit && (h2 == '-') && d1.isDigit && d2.isDigit
  | _ => false

/-- `Intl.DateTimeFormat(..., timeZone "America/Los_Angeles").format(date)`
together with the MM/DD/YYYY → YYYY-MM-DD reconstruction, abstracted over the
civil-calendar computation `pacificFormat`.  `format` throws on an invalid
time value, modelled as `Except.error`. -/
def intlFormatPacific (pacificFormat : Int → String) (timestamp : Int) :
    Except String String :=
  if dateIsValid timestamp then Except.ok (pacificFormat timestamp)
  else Except.error "Invalid time value"

/-- The body of the `try` block of the optimized route's
`convertToPacificTime`: the `isNaN(date.getTime())` guard with early fallback,
the Pacific formatting, and the result-format guard.  `todayISO` models
`new Date().toISOString().slice(0, 10)`, the current processing day. -/
def convertToPacificTimeBody (pacificFormat : Int → String) (todayISO : String)
    (timestamp : Int) : Except String String :=
  if !(dateIsValid timestamp) then Except.ok todayISO
  else
    match intlFormatPacific pacificFormat timestamp with
    | Except.error e => Except.error e
    | Except.ok result =>
      if isValidDateFormat result then Except.ok result else Except.ok todayISO

/-- `convertToPacificTime` of the optimized route with its surrounding
`try`/`catch`: any error raised by the body is caught and replaced by the
current processing day's key. -/
def convertToPacificTimeE (pacificFormat : Int → String) (todayISO : String)
    (timestamp : Int) : Except String String :=
  match convertToPacificTimeBody pacificFormat todayISO timestamp with
  | Except.ok s => Except.ok s
  | Except.error _ => Except.ok todayISO

/-- The value computed by `convertToPacificTime` (the function never throws,
see `C7_normalizer_never_throws`). -/
def convertToPacificTime (pacificFormat : Int → String) (todayISO : String)
    (timestamp : Int) : String :=
  match convertToPacificTimeBody pacificFormat todayISO timestamp with
  | Except.ok s => s
  | Except.error _ => todayISO

/-! ### JS string comparison

`Array.prototype.sort()` without a comparator and `localeCompare` on ASCII
digit/hyphen strings both order "YYYY-MM-DD" keys by code units, which
coincides with Lean's lexicographic `String` order.  A Boolean comparator is
used so that sorting reduces inside the kernel. -/

/-- Lexicographic strict comparison of character lists by code point. -/
def jsStrLtB : List Char → List Char → Bool
  | _, [] => false
  | [], _ :: _ => true
  | a :: as, b :: bs => if a < b then true else if b < a then false else jsStrLtB as bs

/-- JS string `<` (code-unit lexicographic). -/
def jsStrLt (a b : String) : Bool := jsStrLtB a.data b.data

/-- JS string `≤` (code-unit lexicographic). -/
def jsStrLe (a b : String) : Bool := !(jsStrLt b a)

theorem jsStrLtB_eq_true_iff : ∀ as bs : List Char, jsStrLtB as bs = true ↔ as < bs
  | [], [] => by
    constructor
    · intro h
      exact absurd h (by simp [jsStrLtB])
    · intro h
      cases h
  | a :: as, [] => by
    constructor
    · intro h
      exact absurd h (by simp [jsStrLtB])
    · intro h
      cases h
  | [], b :: bs => by
    constructor
    · intro _
      exact List.Lex.nil
    · intro _
      simp [jsStrLtB]
  | a :: as, b :: bs => by
    show (if a < b then true else if b < a then false else jsStrLtB as bs) = true ↔ _
    by_cases hab : a < b
    · rw [if_pos hab]
      exact iff_of_true rfl (List.Lex.rel hab)
    · rw [if_neg hab]
      by_cases hba : b < a
      · rw [if_pos hba]
        refine iff_of_false (by simp) (fun h => ?_)
        cases h with
        | cons h => exact absurd hba (lt_irrefl _)
        | rel h => exact absurd h hab
      · rw [if_neg hba]
        have hev : a = b := le_antisymm (not_lt.mp hba) (not_lt.mp hab)
        subst hev
        rw [jsStrLtB_eq_true_iff as bs]
        constructor
        · exact fun h => List.Lex.cons h
        · intro h
          cases h with
          | cons h => exact h
          | rel h => exact absurd h hab

theorem jsStrLt_iff (a b : String) : jsStrLt a b = true ↔ a < b := by
  rw [String.lt_iff_toList_lt]
  exact jsStrLtB_eq_true_iff a.data b.data

theorem jsStrLe_iff (a b : String) : jsStrLe a b = true ↔ a ≤ b := by
  unfold jsStrLe
  cases hb : jsStrLt b a with
  | true =>
    exact iff_of_false (by simp) (not_le.mpr ((jsStrLt_iff b a).mp hb))
  | false =>
    have hnlt : ¬ (b < a) := fun hlt => by
      have h2 := (jsStrLt_iff b a).mpr hlt
      rw [hb] at h2
      exact Bool.false_ne_true h2
    exact iff_of_true (by simp) (not_lt.mp hnlt)

instance : DecidableRel (fun a b : String => jsStrLe a b = true) :=
  fun _ _ => instDecidableEqBool _ _

instance : IsTotal String (fun a b : String => jsStrLe a b = true) :=
  ⟨fun a b => by
    rcases le_total a b with h | h
    · exact Or.inl ((jsStrLe_iff a b).mpr h)
    · exact Or.inr ((jsStrLe_iff b a).mpr h)⟩

instance : IsTrans String (fun a b : String => jsStrLe a b = true) :=
  ⟨fun a b c hab hbc =>
    (jsStrLe_iff a c).mpr (le_trans ((jsStrLe_iff a b).mp hab) ((jsStrLe_iff b c).mp hbc))⟩

/-! ### JS `Map<string, number>` semantics -/

/-- `Map.get`: the binding written last wins. -/
def jsMapFind (m : List (String × Rat)) (k : String) : Option Rat :=
  m.foldl (fun acc p => if p.1 = k then some p.2 else acc) none

/-- `dailyRevenueMap.get(date) || 0`. -/
def jsMapGetD (m : List (String × Rat)) (k : String) : Rat :=
  (jsMapFind m k).getD 0

/-- `Map.set`: overwrite in place if the key exists, else append. -/
def jsMapSet (m : List (String × Rat)) (k : String) (v : Rat) :
    List (String × Rat) :=
  if m.any (fun p => p.1 == k) then
    m.map (fun p => if p.1 = k then (k, v) else p)
  else m ++ [(k, v)]

/-! ### `getStripeRevenue`: classification and per-day aggregation -/

/-- One iteration of the transaction loop of `getStripeRevenue` (both route
variants): only positive `"charge"`/`"payment"` transactions are included,
the day key is computed from `transaction.created` (the code comments mark
this as the deliberately reverted old logic — using `created`, not
`available_on`), and the amount is scaled by 100 except for the zero-decimal
currencies `"jpy"` and `"krw"`.  The day-key function (the composed
`convertToPacificTime`) is abstracted as `dayKey`. -/
def processTransaction (dayKey : Int → String) (dailyRevenueMap : List (String × Rat))
    (transaction : BalanceTransaction) : List (String × Rat) :=
  if transaction.amount > 0 ∧ (transaction.type = "charge" ∨ transaction.type = "payment") then
    let date := dayKey transaction.created
    let amount := (transaction.amount : Rat) /
      (if transaction.currency = "jpy" ∨ transaction.currency = "krw" then 1 else 100)
    jsMapSet dailyRevenueMap date (jsMapGetD dailyRevenueMap date + amount)
  else dailyRevenueMap

/-- The fully folded `dailyRevenueMap` of `getStripeRevenue`. -/
def processTransactions (dayKey : Int → String)
    (transactions : List BalanceTransaction) : List (String × Rat) :=
  transactions.foldl (processTransaction dayKey) []

instance : DecidableRel (fun a b : DailyRevenue => jsStrLe a.date b.date = true) :=
  fun _ _ => instDecidableEqBool _ _

/-- `getStripeRevenue` (pure part): aggregate, convert map entries to
`DailyRevenue` records and sort by date (`a.date.localeCompare(b.date)`). -/
def getStripeRevenue (dayKey : Int → String)
    (transactions : List BalanceTransaction) : List DailyRevenue :=
  List.insertionSort (fun a b => jsStrLe a.date b.date = true)
    ((processTransactions dayKey transactions).map (fun p => { date := p.1, amount := p.2 }))

/-! ### `combineRecentRevenueData` -/

/-- JS `Map` built from the entry list (`new Map(rev.map(e => [e.date, e]))`):
last binding wins. -/
def jsEntryMapGet (rev : List DailyRevenue) (d : String) : Option DailyRevenue :=
  rev.foldl (fun acc e => if e.date = d then some e else acc) none

/-- `entry ? entry.amount : 0` — the daily amount an account contributes to a
given date (0 when the account has no entry for that date). -/
def lookupAmount (rev : List DailyRevenue) (d : String) : Rat :=
  match jsEntryMapGet rev d with
  | some e => e.amount
  | none => 0

/-- The body of the per-date loop of `combineRecentRevenueData`: look both
accounts up (absent day contributes 0), advance the running cumulatives and
emit the combined entry. -/
def combineStep (interviewCoderRevenue cluelyRevenue : List DailyRevenue)
    (date : String)
    (interviewCoderCumulative cluelyCumulative totalCumulative : Rat) :
    CombinedRevenueData :=
  let interviewCoderAmount := lookupAmount interviewCoderRevenue date
  let cluelyAmount := lookupAmount cluelyRevenue date
  { date := date
    amount_interview_coder := interviewCoderAmount
    cumulative_amount_interview_coder := interviewCoderCumulative + interviewCoderAmount
    amount_cluely := cluelyAmount
    cumulative_amount_cluely := cluelyCumulative + cluelyAmount
    total_daily_revenue := interviewCoderAmount + cluelyAmount
    total_cumulative_revenue := totalCumulative + (interviewCoderAmount + cluelyAmount) }

/-- The per-date loop of `combineRecentRevenueData`, carrying the three
running cumulative totals. -/
def combineLoop (icRev clRev : List DailyRevenue) :
    List String → Rat → Rat → Rat → List CombinedRevenueData
  | [], _, _, _ => []
  | date :: rest, icCum, clCum, totCum =>
    let e := combineStep icRev clRev date icCum clCum totCum
    e :: combineLoop icRev clRev rest
      e.cumulative_amount_interview_coder e.cumulative_amount_cluely
      e.total_cumulative_revenue

/-- `allDates`: the set of dates present in either account's daily revenue. -/
def allDates (icRev clRev : List DailyRevenue) : List String :=
  (icRev.map (fun e => e.date) ++ clRev.map (fun e => e.date)).dedup

/-- `sortedDates`: `Array.from(allDates).sort()` — lexicographic string
sort. -/
def sortedDates (icRev clRev : List DailyRevenue) : List String :=
  List.insertionSort (fun a b => jsStrLe a b = true) (allDates icRev clRev)

/-- `combineRecentRevenueData`. -/
def combineRecentRevenueData (interviewCoderRevenue cluelyRevenue : List DailyRevenue)
    (lastInterviewCoderCumulative lastCluelyCumulative lastTotalCumulative : Rat) :
    List CombinedRevenueData :=
  combineLoop interviewCoderRevenue cluelyRevenue
    (sortedDates interviewCoderRevenue cluelyRevenue)
    lastInterviewCoderCumulative lastCluelyCumulative lastTotalCumulative

/-! ### The `GET` handler's pure data flow -/

/-- `rev.filter(entry => !existingDates.has(entry.date))` — the
duplicate-data guard applied to each account's freshly fetched revenue. -/
def filterExistingDates (existingDates : List String) (rev : List DailyRevenue) :
    List DailyRevenue :=
  rev.filter (fun entry => !(existingDates.contains entry.date))

/-- `lastHistoricalEntry` (`null` on an empty historical ledger). -/
def lastHistoricalEntry (historicalData : List CombinedRevenueData) :
    Option CombinedRevenueData :=
  historicalData.getLast?

/-- Seed cumulative for the Interview Coder account. -/
def lastInterviewCoderCumulative (historicalData : List CombinedRevenueData) : Rat :=
  match lastHistoricalEntry historicalData with
  | some e => e.cumulative_amount_interview_coder
  | none => 0

/-- Seed cumulative for the Cluely account. -/
def lastCluelyCumulative (historicalData : List CombinedRevenueData) : Rat :=
  match lastHistoricalEntry historicalData with
  | some e => e.cumulative_amount_cluely
  | none => 0

/-- Seed total cumulative. -/
def lastTotalCumulative (historicalData : List CombinedRevenueData) : Rat :=
  match lastHistoricalEntry historicalData with
  | some e => e.total_cumulative_revenue
  | none => 0

/-- `recentData` as computed in `GET`: filter each account's fetched daily
revenue against the historical dates, then combine with the seeds taken from
the last historical entry. -/
def recentData (historicalData : List CombinedRevenueData)
    (icFetched clFetched : List DailyRevenue) : List CombinedRevenueData :=
  let existingDates := historicalData.map (fun e => e.date)
  combineRecentRevenueData
    (filterExistingDates existingDates icFetched)
    (filterExistingDates existingDates clFetched)
    (lastInterviewCoderCumulative historicalData)
    (lastCluelyCumulative historicalData)
    (lastTotalCumulative historicalData)

/-- `combinedData = [...historicalData, ...recentData]`. -/
def combinedData (historicalData : List CombinedRevenueData)
    (icFetched clFetched : List DailyRevenue) : List CombinedRevenueData :=
  historicalData ++ recentData historicalData icFetched clFetched

/-- The today-snapshot selection of the optimized route's `GET`:
`todayEntry = combinedData.find(e => e.date === todayDateString)`,
`revenueEntry = todayEntry || lastEntry`, `is_today = !!todayEntry`. -/
def selectSnapshot (series : List CombinedRevenueData) (todayDateString : String) :
    Option CombinedRevenueData × Bool :=
  let todayEntry := series.find? (fun entry => entry.date == todayDateString)
  let lastEntry := series.getLast?
  (todayEntry.orElse (fun _ => lastEntry), todayEntry.isSome)

/-! ### Concrete fixtures used by witnesses and counterexamples -/

/-- A one-row historical ledger ending 2025-06-14 with per-account cumulatives
100 and 60 and total cumulative 160. -/
def histW : List CombinedRevenueData := [⟨"2025-06-14", 100, 100, 60, 60, 160, 160⟩]

/-- One freshly fetched daily-revenue entry for the first account, dated the
day after `histW` ends. -/
def icW : List DailyRevenue := [⟨"2025-06-15", 10⟩]

/-- The combined entry the merge produces from `histW` and `icW`. -/
def entryW : CombinedRevenueData := ⟨"2025-06-15", 10, 110, 0, 60, 10, 170⟩

/-- A daily-revenue entry dated before `histW`'s last day but absent from
`histW`'s date set (an over-fetched day). -/
def icPre : List DailyRevenue := [⟨"2025-06-13", 7⟩]

/-- The combined entry the merge produces from `histW` and `icPre`. -/
def entryPre : CombinedRevenueData := ⟨"2025-06-13", 7, 107, 0, 60, 7, 167⟩

/-! ### Lemmas: JS map lookup -/

theorem foldl_find_const (d : String) :
    ∀ (rev : List DailyRevenue) (acc : Option DailyRevenue),
      (∀ e ∈ rev, e.date ≠ d) →
      rev.foldl (fun acc e => if e.date = d then some e else acc) acc = acc
  | [], _, _ => rfl
  | x :: xs, acc, h => by
    have hx : x.date ≠ d := h x (List.mem_cons_self x xs)
    simp only [List.foldl_cons, if_neg hx]
    exact foldl_find_const d xs acc (fun e he => h e (List.mem_cons_of_mem x he))

theorem foldl_find_pick (d : String) :
    ∀ (rev : List DailyRevenue) (acc : Option DailyRevenue),
      rev.foldl (fun acc e => if e.date = d then some e else acc) acc = acc ∨
      ∃ e ∈ rev, e.date = d ∧
        rev.foldl (fun acc e => if e.date = d then some e else acc) acc = some e
  | [], _ => Or.inl rfl
  | x :: xs, acc => by
    simp only [List.foldl_cons]
    by_cases hx : x.date = d
    · rw [if_pos hx]
      rcases foldl_find_pick d xs (some x) with h | ⟨e, he, hed, hfold⟩
      · exact Or.inr ⟨x, List.mem_cons_self x xs, hx, h⟩
      · exact Or.inr ⟨e, List.mem_cons_of_mem x he, hed, hfold⟩
    · rw [if_neg hx]
      rcases foldl_find_pick d xs acc with h | ⟨e, he, hed, hfold⟩
      · exact Or.inl h
      · exact Or.inr ⟨e, List.mem_cons_of_mem x he, hed, hfold⟩

theorem jsEntryMapGet_eq_none_or_mem (rev : List DailyRevenue) (d : String) :
    jsEntryMapGet rev d = none ∨
      ∃ e ∈ rev, e.date = d ∧ jsEntryMapGet rev d = some e :=
  foldl_find_pick d rev none

theorem foldl_find_isSome (d : String) :
    ∀ (rev : List DailyRevenue) (a : DailyRevenue),
      ∃ b, rev.foldl (fun acc e => if e.date = d then some e else acc) (some a) = some b
  | [], a => ⟨a, rfl⟩
  | x :: xs, a => by
    simp only [List.foldl_cons]
    by_cases hx : x.date = d
    · rw [if_pos hx]
      exact foldl_find_isSome d xs x
    · rw [if_neg hx]
      exact foldl_find_isSome d xs a

theorem foldl_find_ne_none (d : String) :
    ∀ (rev : List DailyRevenue), (∃ x ∈ rev, x.date = d) → ∀ acc,
      ∃ b, rev.foldl (fun acc e => if e.date = d then some e else acc) acc = some b
  | [], h, _ => absurd h (by simp)
  | x :: xs, h, acc => by
    simp only [List.foldl_cons]
    by_cases hx : x.date = d
    · rw [if_pos hx]
      exact foldl_find_isSome d xs x
    · rw [if_neg hx]
      rcases h with ⟨y, hy, hyd⟩
      rcases List.mem_cons.mp hy with rfl | hy2
      · exact absurd hyd hx
      · exact foldl_find_ne_none d xs ⟨y, hy2, hyd⟩ acc

theorem jsEntryMapGet_mem_of_exists {rev : List DailyRevenue} {d : String}
    (h : ∃ x ∈ rev, x.date = d) :
    ∃ e ∈ rev, e.date = d ∧ jsEntryMapGet rev d = some e := by
  rcases jsEntryMapGet_eq_none_or_mem rev d with hnone | h2
  · rcases foldl_find_ne_none d rev h none with ⟨b, hb⟩
    simp only [jsEntryMapGet] at hnone
    rw [hnone] at hb
    exact Option.noConfusion hb
  · exact h2

theorem jsEntryMapGet_foldl_nodup (d : String) :
    ∀ (rev : List DailyRevenue),
      (rev.map (fun e => e.date)).Nodup →
      ∀ x ∈ rev, x.date = d → ∀ acc,
        rev.foldl (fun acc e => if e.date = d then some e else acc) acc = some x
  | [], _, x, hx, _, _ => absurd hx (by simp)
  | y :: ys, hnd, x, hx, hxd, acc => by
    rw [List.map_cons, List.nodup_cons] at hnd
    obtain ⟨hynotin, hndtail⟩ := hnd
    simp only [List.foldl_cons]
    rcases List.mem_cons.mp hx with rfl | hx2
    · rw [if_pos hxd]
      apply foldl_find_const
      intro e he hed
      have hmem : e.date ∈ ys.map (fun e => e.date) := List.mem_map_of_mem _ he
      rw [hed, ← hxd] at hmem
      exact hynotin hmem
    · by_cases hy : y.date = d
      · have hmem : x.date ∈ ys.map (fun e => e.date) := List.mem_map_of_mem _ hx2
        rw [hxd, ← hy] at hmem
        exact absurd hmem hynotin
      · rw [if_neg hy]
        exact jsEntryMapGet_foldl_nodup d ys hndtail x hx2 hxd acc

theorem jsEntryMapGet_eq_of_nodup {rev : List DailyRevenue}
    (hnd : (rev.map (fun e => e.date)).Nodup) {x : DailyRevenue} (hx : x ∈ rev) :
    jsEntryMapGet rev x.date = some x :=
  jsEntryMapGet_foldl_nodup x.date rev hnd x hx rfl none

theorem lookupAmount_eq_of_nodup {rev : List DailyRevenue}
    (hnd : (rev.map (fun e => e.date)).Nodup) {x : DailyRevenue} (hx : x ∈ rev) :
    lookupAmount rev x.date = x.amount := by
  unfold lookupAmount
  rw [jsEntryMapGet_eq_of_nodup hnd hx]

theorem lookupAmount_nonneg {rev : List DailyRevenue}
    (hpos : ∀ e ∈ rev, 0 < e.amount) (d : String) : 0 ≤ lookupAmount rev d := by
  unfold lookupAmount
  rcases jsEntryMapGet_eq_none_or_mem rev d with h | ⟨e, he, _, h⟩
  · rw [h]
  · rw [h]
    exact le_of_lt (hpos e he)

theorem lookupAmount_pos {rev : List DailyRevenue}
    (hpos : ∀ e ∈ rev, 0 < e.amount) {d : String} (hmem : ∃ x ∈ rev, x.date = d) :
    0 < lookupAmount rev d := by
  obtain ⟨e, he, _, h⟩ := jsEntryMapGet_mem_of_exists hmem
  unfold lookupAmount
  rw [h]
  exact hpos e he

theorem lookupAmount_nil (d : String) : lookupAmount [] d = 0 := rfl

/-! ### Lemmas: the combine loop -/

theorem combineLoop_map_date (ic cl : List DailyRevenue) :
    ∀ (ds : List String) (a b c : Rat),
      (combineLoop ic cl ds a b c).map (fun e => e.date) = ds
  | [], _, _, _ => rfl
  | d :: rest, a, b, c => by
    simp only [combineLoop, List.map_cons]
    rw [combineLoop_map_date ic cl rest]
    rfl

theorem combineLoop_mem_fields (ic cl : List DailyRevenue) :
    ∀ (ds : List String) (a b c : Rat) (e : CombinedRevenueData),
      e ∈ combineLoop ic cl ds a b c →
      e.amount_interview_coder = lookupAmount ic e.date ∧
      e.amount_cluely = lookupAmount cl e.date ∧
      e.total_daily_revenue = e.amount_interview_coder + e.amount_cluely
  | [], _, _, _, e, he => absurd he (by simp [combineLoop])
  | d :: rest, a, b, c, e, he => by
    simp only [combineLoop] at he
    rcases List.mem_cons.mp he with rfl | he2
    · exact ⟨rfl, rfl, rfl⟩
    · exact combineLoop_mem_fields ic cl rest _ _ _ e he2

theorem combineLoop_chain (ic cl : List DailyRevenue) :
    ∀ (ds : List String) (a b c : Rat),
      List.Chain' (fun p q =>
        q.cumulative_amount_interview_coder
          = p.cumulative_amount_interview_coder + q.amount_interview_coder ∧
        q.cumulative_amount_cluely = p.cumulative_amount_cluely + q.amount_cluely ∧
        q.total_cumulative_revenue = p.total_cumulative_revenue + q.total_daily_revenue)
        (combineLoop ic cl ds a b c)
  | [], _, _, _ => List.chain'_nil
  | [d], a, b, c => by
    simp only [combineLoop]
    exact List.chain'_singleton _
  | d1 :: d2 :: rest, a, b, c => by
    simp only [combineLoop]
    refine List.Chain'.cons ⟨rfl, rfl, rfl⟩ ?_
    exact combineLoop_chain ic cl (d2 :: rest) _ _ _

theorem combineLoop_head_fields (ic cl : List DailyRevenue) :
    ∀ (ds : List String) (a b c : Rat) (e : CombinedRevenueData),
      (combineLoop ic cl ds a b c).head? = some e →
      e.cumulative_amount_interview_coder = a + e.amount_interview_coder ∧
      e.cumulative_amount_cluely = b + e.amount_cluely ∧
      e.total_cumulative_revenue = c + e.total_daily_revenue
  | [], _, _, _, e, he => Option.noConfusion he
  | d :: rest, a, b, c, e, he => by
    have hval : combineStep ic cl d a b c = e := by
      simpa [combineLoop] using he
    subst hval
    exact ⟨rfl, rfl, rfl⟩

theorem combineLoop_total_eq (ic cl : List DailyRevenue) :
    ∀ (ds : List String) (a b c : Rat), c = a + b →
      ∀ e ∈ combineLoop ic cl ds a b c,
        e.total_cumulative_revenue
          = e.cumulative_amount_interview_coder + e.cumulative_amount_cluely
  | [], _, _, _, _, e, he => absurd he (by simp [combineLoop])
  | d :: rest, a, b, c, hc, e, he => by
    simp only [combineLoop] at he
    rcases List.mem_cons.mp he with rfl | he2
    · show c + (lookupAmount ic d + lookupAmount cl d)
        = (a + lookupAmount ic d) + (b + lookupAmount cl d)
      rw [hc]
      ring
    · refine combineLoop_total_eq ic cl rest _ _ _ ?_ e he2
      show c + (lookupAmount ic d + lookupAmount cl d)
        = (a + lookupAmount ic d) + (b + lookupAmount cl d)
      rw [hc]
      ring

/-! ### Lemmas: sorted candidate dates -/

theorem mem_sortedDates {ic cl : List DailyRevenue} {d : String} :
    d ∈ sortedDates ic cl ↔
      d ∈ ic.map (fun e => e.date) ∨ d ∈ cl.map (fun e => e.date) := by
  unfold sortedDates allDates
  rw [(List.perm_insertionSort _ _).mem_iff, List.mem_dedup, List.mem_append]

theorem sortedDates_nodup (ic cl : List DailyRevenue) : (sortedDates ic cl).Nodup := by
  unfold sortedDates
  exact ((List.perm_insertionSort _ _).nodup_iff).mpr (List.nodup_dedup _)

theorem sortedDates_sorted (ic cl : List DailyRevenue) :
    (sortedDates ic cl).Sorted (fun a b => jsStrLe a b = true) :=
  List.sorted_insertionSort _ _

theorem sortedDates_sorted_lt (ic cl : List DailyRevenue) :
    (sortedDates ic cl).Sorted (fun a b : String => a < b) := by
  have h1 := sortedDates_sorted ic cl
  have h2 := sortedDates_nodup ic cl
  refine List.Pairwise.imp ?_ (List.Pairwise.and h1 h2)
  rintro a b ⟨hle, hne⟩
  exact lt_of_le_of_ne ((jsStrLe_iff a b).mp hle) hne

/-! ### Lemmas: transaction classification and aggregation -/

theorem processTransaction_not_included (dayKey : Int → String)
    (m : List (String × Rat)) (t : BalanceTransaction)
    (h : ¬(t.amount > 0 ∧ (t.type = "charge" ∨ t.type = "payment"))) :
    processTransaction dayKey m t = m := by
  unfold processTransaction
  rw [if_neg h]

theorem foldl_jsMapFind_pick (k : String) :
    ∀ (m : List (String × Rat)) (acc : Option Rat),
      m.foldl (fun acc p => if p.1 = k then some p.2 else acc) acc = acc ∨
      ∃ p ∈ m, p.1 = k ∧
        m.foldl (fun acc p => if p.1 = k then some p.2 else acc) acc = some p.2
  | [], _ => Or.inl rfl
  | x :: xs, acc => by
    simp only [List.foldl_cons]
    by_cases hx : x.1 = k
    · rw [if_pos hx]
      rcases foldl_jsMapFind_pick k xs (some x.2) with h | ⟨p, hp, hpk, hfold⟩
      · exact Or.inr ⟨x, List.mem_cons_self x xs, hx, h⟩
      · exact Or.inr ⟨p, List.mem_cons_of_mem x hp, hpk, hfold⟩
    · rw [if_neg hx]
      rcases foldl_jsMapFind_pick k xs acc with h | ⟨p, hp, hpk, hfold⟩
      · exact Or.inl h
      · exact Or.inr ⟨p, List.mem_cons_of_mem x hp, hpk, hfold⟩

theorem jsMapGetD_nonneg {m : List (String × Rat)}
    (hpos : ∀ p ∈ m, 0 < p.2) (k : String) : 0 ≤ jsMapGetD m k := by
  unfold jsMapGetD jsMapFind
  rcases foldl_jsMapFind_pick k m none with h | ⟨p, hp, _, h⟩
  · rw [h]
    exact le_refl 0
  · rw [h]
    exact le_of_lt (hpos p hp)

theorem jsMapSet_pos {m : List (String × Rat)} (hpos : ∀ p ∈ m, 0 < p.2)
    {k : String} {v : Rat} (hv : 0 < v) :
    ∀ p ∈ jsMapSet m k v, 0 < p.2 := by
  intro p hp
  unfold jsMapSet at hp
  split at hp
  · obtain ⟨q, hq, hqe⟩ := List.mem_map.mp hp
    by_cases hqk : q.1 = k
    · rw [if_pos hqk] at hqe
      rw [← hqe]
      exact hv
    · rw [if_neg hqk] at hqe
      rw [← hqe]
      exact hpos q hq
  · rcases List.mem_append.mp hp with h | h
    · exact hpos p h
    · rw [List.mem_singleton.mp h]
      exact hv

theorem revenueAmount_pos {t : BalanceTransaction} (h : 0 < t.amount) :
    0 < (t.amount : Rat) /
      (if t.currency = "jpy" ∨ t.currency = "krw" then 1 else 100) := by
  apply div_pos
  · exact_mod_cast h
  · split <;> norm_num

theorem processTransactions_foldl_pos (dayKey : Int → String) :
    ∀ (txs : List BalanceTransaction) (m : List (String × Rat)),
      (∀ p ∈ m, 0 < p.2) →
      ∀ p ∈ txs.foldl (processTransaction dayKey) m, 0 < p.2
  | [], _, hm, p, hp => hm p hp
  | t :: ts, m, hm, p, hp => by
    rw [List.foldl_cons] at hp
    refine processTransactions_foldl_pos dayKey ts _ ?_ p hp
    intro q hq
    unfold processTransaction at hq
    split at hq
    case isTrue h =>
      refine jsMapSet_pos hm ?_ q hq
      exact add_pos_of_nonneg_of_pos (jsMapGetD_nonneg hm _) (revenueAmount_pos h.1)
    case isFalse _ => exact hm q hq

theorem processTransactions_pos (dayKey : Int → String)
    (txs : List BalanceTransaction) :
    ∀ p ∈ processTransactions dayKey txs, 0 < p.2 :=
  processTransactions_foldl_pos dayKey txs [] (by simp)

theorem getStripeRevenue_pos (dayKey : Int → String)
    (txs : List BalanceTransaction) :
    ∀ e ∈ getStripeRevenue dayKey txs, 0 < e.amount := by
  intro e he
  unfold getStripeRevenue at he
  rw [(List.perm_insertionSort _ _).mem_iff] at he
  obtain ⟨p, hp, hpe⟩ := List.mem_map.mp he
  rw [← hpe]
  exact processTransactions_pos dayKey txs p hp

theorem jsMapSet_keys_mono {m : List (String × Rat)} {k : String}
    (k2 : String) (v : Rat) (h : k ∈ m.map Prod.fst) :
    k ∈ (jsMapSet m k2 v).map Prod.fst := by
  unfold jsMapSet
  split
  · obtain ⟨p, hp, hpk⟩ := List.mem_map.mp h
    refine List.mem_map.mpr
      ⟨if p.1 = k2 then (k2, v) else p, List.mem_map.mpr ⟨p, hp, rfl⟩, ?_⟩
    by_cases hpk2 : p.1 = k2
    · rw [if_pos hpk2]
      show k2 = k
      rw [← hpk, hpk2]
    · rw [if_neg hpk2]
      exact hpk
  · rw [List.map_append]
    exact List.mem_append_left _ h

theorem jsMapSet_key_mem (m : List (String × Rat)) (k : String) (v : Rat) :
    k ∈ (jsMapSet m k v).map Prod.fst := by
  unfold jsMapSet
  split
  case isTrue hany =>
    obtain ⟨p, hp, hpk⟩ := List.any_eq_true.mp hany
    refine List.mem_map.mpr ⟨(k, v), List.mem_map.mpr ⟨p, hp, ?_⟩, rfl⟩
    rw [if_pos (beq_iff_eq.mp hpk)]
  case isFalse _ =>
    rw [List.map_append]
    exact List.mem_append_right _ (by simp)

theorem processTransactions_key_mem (dayKey : Int → String) :
    ∀ (txs : List BalanceTransaction) (m : List (String × Rat)) (k : String),
      k ∈ m.map Prod.fst →
      k ∈ (txs.foldl (processTransaction dayKey) m).map Prod.fst
  | [], _, _, h => h
  | t :: ts, m, k, h => by
    rw [List.foldl_cons]
    refine processTransactions_key_mem dayKey ts _ k ?_
    unfold processTransaction
    split
    · exact jsMapSet_keys_mono _ _ h
    · exact h

/-! ### Lemmas: duplicate-date filtering and `recentData` -/

theorem mem_filterExistingDates {ed : List String} {rev : List DailyRevenue}
    {x : DailyRevenue} :
    x ∈ filterExistingDates ed rev ↔ x ∈ rev ∧ x.date ∉ ed := by
  unfold filterExistingDates
  rw [List.mem_filter]
  simp

theorem recentData_map_date (hist : List CombinedRevenueData)
    (ic cl : List DailyRevenue) :
    (recentData hist ic cl).map (fun e => e.date)
      = sortedDates (filterExistingDates (hist.map fun e => e.date) ic)
          (filterExistingDates (hist.map fun e => e.date) cl) := by
  simp only [recentData, combineRecentRevenueData]
  exact combineLoop_map_date _ _ _ _ _ _

theorem recentData_date_not_hist {hist : List CombinedRevenueData}
    {ic cl : List DailyRevenue} {e : CombinedRevenueData}
    (he : e ∈ recentData hist ic cl) :
    e.date ∉ hist.map (fun h => h.date) := by
  have hdate : e.date ∈ (recentData hist ic cl).map (fun e => e.date) :=
    List.mem_map_of_mem _ he
  rw [recentData_map_date, mem_sortedDates] at hdate
  rcases hdate with h | h
  · obtain ⟨x, hx, hxd⟩ := List.mem_map.mp h
    have hnot := (mem_filterExistingDates.mp hx).2
    rw [hxd] at hnot
    exact hnot
  · obtain ⟨x, hx, hxd⟩ := List.mem_map.mp h
    have hnot := (mem_filterExistingDates.mp hx).2
    rw [hxd] at hnot
    exact hnot

/-! ### Concrete evaluations of the fixtures -/

theorem combineRecent_fixture : combineRecentRevenueData icW [] 100 60 160 = [entryW] := by
  simp [combineRecentRevenueData, combineLoop, combineStep, sortedDates, allDates,
    lookupAmount, jsEntryMapGet, icW, entryW, List.insertionSort, List.orderedInsert]
  norm_num

theorem recentData_fixture : recentData histW icW [] = [entryW] := by
  simp [recentData, combineRecentRevenueData, combineLoop, combineStep, sortedDates,
    allDates, filterExistingDates, lookupAmount, jsEntryMapGet,
    lastInterviewCoderCumulative, lastCluelyCumulative, lastTotalCumulative,
    lastHistoricalEntry, histW, icW, entryW, List.insertionSort, List.orderedInsert]
  norm_num

theorem recentData_fixturePre : recentData histW icPre [] = [entryPre] := by
  simp [recentData, combineRecentRevenueData, combineLoop, combineStep, sortedDates,
    allDates, filterExistingDates, lookupAmount, jsEntryMapGet,
    lastInterviewCoderCumulative, lastCluelyCumulative, lastTotalCumulative,
    lastHistoricalEntry, histW, icPre, entryPre, List.insertionSort, List.orderedInsert]
  norm_num

theorem combinedData_fixture :
    combinedData histW icW []
      = [⟨"2025-06-14", 100, 100, 60, 60, 160, 160⟩, entryW] := by
  unfold combinedData
  rw [recentData_fixture]
  simp [histW]

/-! ### Claims -/

/-- C3 counterexample: the code violates the "exclude every candidate day ≤
the historical last date" rule.  With a historical ledger whose single (and
last) row is dated 2025-06-14, a freshly fetched daily revenue dated
2025-06-13 — a day ≤ the historical last date but absent from the historical
date set — survives the duplicate filter and produces an entry in the newly
appended segment. -/
theorem C3_counterexample :
    ("2025-06-13" : String) ≤ "2025-06-14" ∧
    (histW.map fun e => e.date) = ["2025-06-14"] ∧
    recentData histW icPre [] = [entryPre] ∧
    entryPre.date = "2025-06-13" := by
  refine ⟨(jsStrLe_iff _ _).mp rfl, by simp [histW], recentData_fixturePre, rfl⟩

/-- C3 (amended): the merge excludes exactly the candidate new days whose
date already appears in the historical ledger's date set (the
`existingDates.has` filter); no entry of the newly appended segment carries a
date present in the historical data.  Days ≤ the historical last date that
are absent from the historical date set are not excluded. -/
theorem C3_amended_no_duplicate_of_hist (hist : List CombinedRevenueData)
    (icFetched clFetched : List DailyRevenue) :
    ∀ e ∈ recentData hist icFetched clFetched,
      e.date ∉ hist.map (fun h => h.date) :=
  fun _ he => recentData_date_not_hist he

theorem C3_amended_witness : entryW.date ∉ histW.map (fun h => h.date) :=
  C3_amended_no_duplicate_of_hist histW icW [] entryW
    (by rw [recentData_fixture]; exact List.mem_singleton_self _)

/-- C4: for each account, the newly appended segment satisfies the
running-sum recurrence.  The first new entry's cumulative equals the seed
cumulative (the historical last entry's per-account cumulative, or 0 if the
historical ledger is empty) plus its own amount, and every adjacent pair
satisfies cumulative[i] = cumulative[i-1] + amount[i] (stated as
`List.Chain'` over adjacent entries, which is exactly the recurrence for all
indices i > 0). -/
theorem C4_cumulative_running_sum (hist : List CombinedRevenueData)
    (icFetched clFetched : List DailyRevenue) :
    (∀ e, (recentData hist icFetched clFetched).head? = some e →
      e.cumulative_amount_interview_coder
        = lastInterviewCoderCumulative hist + e.amount_interview_coder ∧
      e.cumulative_amount_cluely = lastCluelyCumulative hist + e.amount_cluely) ∧
    List.Chain' (fun p q =>
      q.cumulative_amount_interview_coder
        = p.cumulative_amount_interview_coder + q.amount_interview_coder ∧
      q.cumulative_amount_cluely = p.cumulative_amount_cluely + q.amount_cluely)
      (recentData hist icFetched clFetched) := by
  constructor
  · intro e he
    simp only [recentData, combineRecentRevenueData] at he
    have h := combineLoop_head_fields _ _ _ _ _ _ e he
    exact ⟨h.1, h.2.1⟩
  · have h : List.Chain' (fun p q =>
        q.cumulative_amount_interview_coder
          = p.cumulative_amount_interview_coder + q.amount_interview_coder ∧
        q.cumulative_amount_cluely = p.cumulative_amount_cluely + q.amount_cluely ∧
        q.total_cumulative_revenue = p.total_cumulative_revenue + q.total_daily_revenue)
        (recentData hist icFetched clFetched) := by
      simp only [recentData, combineRecentRevenueData]
      exact combineLoop_chain _ _ _ _ _ _
    exact h.imp (fun {p q} hpq => ⟨hpq.1, hpq.2.1⟩)

theorem C4_running_sum_witness :
    entryW.cumulative_amount_interview_coder
      = lastInterviewCoderCumulative histW + entryW.amount_interview_coder ∧
    entryW.cumulative_amount_cluely
      = lastCluelyCumulative histW + entryW.amount_cluely :=
  (C4_cumulative_running_sum histW icW []).1 entryW (by rw [recentData_fixture]; rfl)

/-- C5: every entry of the newly appended segment satisfies
total_daily = amount_A + amount_B unconditionally, and
total_cumulative = cumulative_A + cumulative_B whenever the seed satisfies
seedCumTotal = seedCumA + seedCumB. -/
theorem C5_totals_consistent (hist : List CombinedRevenueData)
    (icFetched clFetched : List DailyRevenue) :
    (∀ e ∈ recentData hist icFetched clFetched,
      e.total_daily_revenue = e.amount_interview_coder + e.amount_cluely) ∧
    (lastTotalCumulative hist
        = lastInterviewCoderCumulative hist + lastCluelyCumulative hist →
      ∀ e ∈ recentData hist icFetched clFetched,
        e.total_cumulative_revenue
          = e.cumulative_amount_interview_coder + e.cumulative_amount_cluely) := by
  constructor
  · intro e he
    simp only [recentData, combineRecentRevenueData] at he
    exact (combineLoop_mem_fields _ _ _ _ _ _ e he).2.2
  · intro hseed e he
    simp only [recentData, combineRecentRevenueData] at he
    exact combineLoop_total_eq _ _ _ _ _ _ hseed e he

theorem C5_totals_witness :
    entryW.total_daily_revenue = entryW.amount_interview_coder + entryW.amount_cluely ∧
    entryW.total_cumulative_revenue
      = entryW.cumulative_amount_interview_coder + entryW.cumulative_amount_cluely := by
  constructor
  · exact (C5_totals_consistent histW icW []).1 entryW
      (by rw [recentData_fixture]; exact List.mem_singleton_self _)
  · refine (C5_totals_consistent histW icW []).2 ?_ entryW
      (by rw [recentData_fixture]; exact List.mem_singleton_self _)
    simp [lastTotalCumulative, lastInterviewCoderCumulative, lastCluelyCumulative,
      lastHistoricalEntry, histW]
    norm_num

/-- C6: the merge is deterministic (re-running it on the same inputs yields
the same output), and — provided the historical ledger's dates are
duplicate-free — no date appears twice in the combined output, whose newly
appended segment is sorted strictly ascending by date. -/
theorem C6_idempotent_duplicate_free (hist : List CombinedRevenueData)
    (icFetched clFetched : List DailyRevenue)
    (hnd : (hist.map fun e => e.date).Nodup) :
    combinedData hist icFetched clFetched = combinedData hist icFetched clFetched ∧
    ((combinedData hist icFetched clFetched).map fun e => e.date).Nodup ∧
    ((recentData hist icFetched clFetched).map fun e => e.date).Sorted
      (fun a b : String => a < b) := by
  refine ⟨rfl, ?_, ?_⟩
  · unfold combinedData
    rw [List.map_append, List.nodup_append]
    refine ⟨hnd, ?_, ?_⟩
    · rw [recentData_map_date]
      exact sortedDates_nodup _ _
    · intro a ha hb
      obtain ⟨e, he, hed⟩ := List.mem_map.mp hb
      have hnot := recentData_date_not_hist he
      rw [hed] at hnot
      exact hnot ha
  · rw [recentData_map_date]
    exact sortedDates_sorted_lt _ _

theorem C6_witness :
    (combinedData histW icW [] = combinedData histW icW []) ∧
    ((combinedData histW icW []).map fun e => e.date).Nodup ∧
    ((recentData histW icW []).map fun e => e.date).Sorted
      (fun a b : String => a < b) :=
  C6_idempotent_duplicate_free histW icW [] (by simp [histW])

/-- C9: when account B's batch is empty (failed fetch), the combined output
is still the historical prefix followed by the new segment, the historical
prefix is returned unchanged, every new entry carries amount_cluely = 0 and
total_daily = amount_interview_coder, and every filtered fetched day of
account A appears in the new segment with its aggregated amount (provided
account A's per-day dates are duplicate-free, as `getStripeRevenue`
guarantees). -/
theorem C9_partial_source_failure (hist : List CombinedRevenueData)
    (icFetched : List DailyRevenue)
    (hnd : (icFetched.map fun e => e.date).Nodup) :
    combinedData hist icFetched [] = hist ++ recentData hist icFetched [] ∧
    (combinedData hist icFetched []).take hist.length = hist ∧
    (∀ e ∈ recentData hist icFetched [],
      e.amount_cluely = 0 ∧ e.total_daily_revenue = e.amount_interview_coder) ∧
    (∀ x ∈ filterExistingDates (hist.map fun e => e.date) icFetched,
      ∃ e ∈ recentData hist icFetched [],
        e.date = x.date ∧ e.amount_interview_coder = x.amount) := by
  refine ⟨rfl, ?_, ?_, ?_⟩
  · unfold combinedData
    exact List.take_left hist (recentData hist icFetched [])
  · intro e he
    simp only [recentData, combineRecentRevenueData] at he
    obtain ⟨h1, h2, h3⟩ := combineLoop_mem_fields _ _ _ _ _ _ e he
    have hz : e.amount_cluely = 0 := by
      rw [h2]
      rfl
    refine ⟨hz, ?_⟩
    rw [h3, hz, add_zero]
  · intro x hx
    have hdate : x.date ∈ (recentData hist icFetched []).map (fun e => e.date) := by
      rw [recentData_map_date]
      exact mem_sortedDates.mpr (Or.inl (List.mem_map_of_mem _ hx))
    obtain ⟨e, he, hed⟩ := List.mem_map.mp hdate
    refine ⟨e, he, hed, ?_⟩
    have hmem := he
    simp only [recentData, combineRecentRevenueData] at hmem
    obtain ⟨h1, _, _⟩ := combineLoop_mem_fields _ _ _ _ _ _ e hmem
    rw [h1, hed]
    have hndf : ((filterExistingDates (hist.map fun e => e.date) icFetched).map
        fun e => e.date).Nodup :=
      List.Nodup.sublist (List.Sublist.map _ (List.filter_sublist _)) hnd
    exact lookupAmount_eq_of_nodup hndf hx

theorem C9_witness :
    combinedData histW icW [] = histW ++ recentData histW icW [] ∧
    (combinedData histW icW []).take histW.length = histW ∧
    (entryW.amount_cluely = 0 ∧
      entryW.total_daily_revenue = entryW.amount_interview_coder) := by
  have h := C9_partial_source_failure histW icW (by simp [icW])
  exact ⟨h.1, h.2.1, h.2.2.1 entryW
    (by rw [recentData_fixture]; exact List.mem_singleton_self _)⟩

/-- C10 (implicit): every per-day amount produced by the aggregation of
freshly fetched transactions is strictly positive (only positive
charge/payment transactions are included and each present day sums at least
one of them); consequently, whenever both accounts' daily lists carry only
positive amounts, every entry of the merge's newly appended segment has
total_daily > 0, total_cumulative is strictly increasing and each
per-account cumulative is non-decreasing across the segment (adjacent pairs
stated via `List.Chain'`). -/
theorem C10_positive_amounts_monotone (dayKey : Int → String)
    (txs : List BalanceTransaction) (ic cl : List DailyRevenue)
    (sa sb st : Rat)
    (hic : ∀ e ∈ ic, 0 < e.amount) (hcl : ∀ e ∈ cl, 0 < e.amount) :
    (∀ e ∈ getStripeRevenue dayKey txs, 0 < e.amount) ∧
    (∀ e ∈ combineRecentRevenueData ic cl sa sb st, 0 < e.total_daily_revenue) ∧
    List.Chain' (fun p q =>
      p.total_cumulative_revenue < q.total_cumulative_revenue ∧
      p.cumulative_amount_interview_coder ≤ q.cumulative_amount_interview_coder ∧
      p.cumulative_amount_cluely ≤ q.cumulative_amount_cluely)
      (combineRecentRevenueData ic cl sa sb st) := by
  have hdaily : ∀ e ∈ combineRecentRevenueData ic cl sa sb st,
      0 < e.total_daily_revenue := by
    intro e he
    unfold combineRecentRevenueData at he
    obtain ⟨h1, h2, h3⟩ := combineLoop_mem_fields _ _ _ _ _ _ e he
    have hd : e.date ∈ sortedDates ic cl := by
      rw [← combineLoop_map_date ic cl (sortedDates ic cl) sa sb st]
      exact List.mem_map_of_mem _ he
    rw [h3, h1, h2]
    rcases mem_sortedDates.mp hd with h | h
    · obtain ⟨x, hx, hxd⟩ := List.mem_map.mp h
      exact add_pos_of_pos_of_nonneg (lookupAmount_pos hic ⟨x, hx, hxd⟩)
        (lookupAmount_nonneg hcl _)
    · obtain ⟨x, hx, hxd⟩ := List.mem_map.mp h
      exact add_pos_of_nonneg_of_pos (lookupAmount_nonneg hic _)
        (lookupAmount_pos hcl ⟨x, hx, hxd⟩)
  refine ⟨getStripeRevenue_pos dayKey txs, hdaily, ?_⟩
  have hmem_fields : ∀ e ∈ combineRecentRevenueData ic cl sa sb st,
      e.amount_interview_coder = lookupAmount ic e.date ∧
      e.amount_cluely = lookupAmount cl e.date ∧
      e.total_daily_revenue = e.amount_interview_coder + e.amount_cluely :=
    fun e he => combineLoop_mem_fields _ _ _ _ _ _ e he
  have hchain : List.Chain' (fun p q =>
      q.cumulative_amount_interview_coder
        = p.cumulative_amount_interview_coder + q.amount_interview_coder ∧
      q.cumulative_amount_cluely = p.cumulative_amount_cluely + q.amount_cluely ∧
      q.total_cumulative_revenue = p.total_cumulative_revenue + q.total_daily_revenue)
      (combineRecentRevenueData ic cl sa sb st) :=
    combineLoop_chain ic cl (sortedDates ic cl) sa sb st
  rw [List.chain'_iff_get]
  intro i hi
  obtain ⟨hr1, hr2, hr3⟩ := List.chain'_iff_get.mp hchain i hi
  have hq_mem : (combineRecentRevenueData ic cl sa sb st).get
      ⟨i + 1, by omega⟩ ∈ combineRecentRevenueData ic cl sa sb st :=
    List.get_mem _ _ _
  obtain ⟨hq1, hq2, _⟩ := hmem_fields _ hq_mem
  refine ⟨?_, ?_, ?_⟩
  · rw [hr3]
    exact lt_add_of_pos_right _ (hdaily _ hq_mem)
  · rw [hr1]
    refine le_add_of_nonneg_right ?_
    rw [hq1]
    exact lookupAmount_nonneg hic _
  · rw [hr2]
    refine le_add_of_nonneg_right ?_
    rw [hq2]
    exact lookupAmount_nonneg hcl _

theorem C10_witness :
    0 < entryW.total_daily_revenue := by
  have h := C10_positive_amounts_monotone (fun _ => "2025-06-15") [] icW [] 100 60 160
    (by
      intro e he
      rw [icW, List.mem_singleton] at he
      subst he
      show (0 : Rat) < 10
      norm_num)
    (by
      intro e he
      simp at he)
  exact h.2.1 entryW (by rw [combineRecent_fixture]; exact List.mem_singleton_self _)

/-- C1 counterexample: the classifier keys the emitted delta by the day of
the transaction's creation timestamp, not its funds-availability timestamp.
A charge created at epoch second 0 with available_on = 259200 (three days
later), under a day-key function separating the two instants, lands under
the creation day 2025-06-12, and no delta is keyed by the availability day
2025-06-15. -/
theorem C1_counterexample :
    processTransactions (fun t => if t = 0 then "2025-06-12" else "2025-06-15")
        [⟨"charge", 1000, "usd", 0, 259200⟩]
      = [("2025-06-12", 10)] ∧
    "2025-06-15" ∉ (processTransactions
        (fun t => if t = 0 then "2025-06-12" else "2025-06-15")
        [⟨"charge", 1000, "usd", 0, 259200⟩]).map Prod.fst ∧
    (fun t : Int => if t = 0 then "2025-06-12" else "2025-06-15")
        (259200 : Int) = "2025-06-15" := by
  refine ⟨?_, ?_, rfl⟩
  · simp [processTransactions, processTransaction, jsMapSet, jsMapGetD, jsMapFind]
    norm_num
  · simp [processTransactions, processTransaction, jsMapSet, jsMapGetD, jsMapFind]

/-- C1 (amended): for every included transaction (positive amount, type
charge/payment), the emitted revenue delta is keyed by the day key of the
transaction's creation timestamp `created` — a charge with availableOn = T
and createdOn = T - 3 days is attributed to the calendar day of T - 3 days,
not T. -/
theorem C1_amended_day_key_from_created (dayKey : Int → String)
    (txs : List BalanceTransaction) (t : BalanceTransaction) (ht : t ∈ txs)
    (hpos : 0 < t.amount) (hty : t.type = "charge" ∨ t.type = "payment") :
    dayKey t.created ∈ (processTransactions dayKey txs).map Prod.fst := by
  obtain ⟨pre, post, rfl⟩ := List.append_of_mem ht
  unfold processTransactions
  rw [List.foldl_append, List.foldl_cons]
  apply processTransactions_key_mem
  unfold processTransaction
  rw [if_pos ⟨hpos, hty⟩]
  exact jsMapSet_key_mem _ _ _

theorem C1_amended_witness :
    "2025-06-12" ∈ (processTransactions
        (fun t : Int => if t = 0 then "2025-06-12" else "2025-06-15")
        [⟨"charge", 1000, "usd", 0, 259200⟩]).map Prod.fst :=
  C1_amended_day_key_from_created _ _ _ (List.mem_singleton_self _)
    (by decide) (Or.inl rfl)

/-- C2 counterexample: a "refund" transaction with raw amount -500 yields no
revenue delta at all — the aggregation map stays empty — contradicting the
claimed -5.00 delta; a "charge" with raw amount -500 also yields no delta
(that half of the claim matches the code). -/
theorem C2_counterexample :
    processTransactions (fun _ => "2025-06-15") [⟨"refund", -500, "usd", 0, 0⟩] = [] ∧
    processTransactions (fun _ => "2025-06-15") [⟨"charge", -500, "usd", 0, 0⟩] = [] := by
  constructor <;> rfl

/-- C2 (amended): the classifier includes only positive charge/payment
transactions; a transaction of type "refund" (any amount) or any transaction
with non-positive raw amount contributes nothing — removing it from the
batch leaves the aggregation unchanged. -/
theorem C2_amended_refund_no_delta (dayKey : Int → String)
    (pre post : List BalanceTransaction) (t : BalanceTransaction)
    (h : t.type = "refund" ∨ t.amount ≤ 0) :
    processTransactions dayKey (pre ++ t :: post)
      = processTransactions dayKey (pre ++ post) := by
  unfold processTransactions
  rw [List.foldl_append, List.foldl_append, List.foldl_cons]
  congr 1
  apply processTransaction_not_included
  rintro ⟨hpos, hty⟩
  rcases h with h | h
  · rcases hty with h2 | h2 <;> rw [h] at h2 <;> exact absurd h2 (by decide)
  · exact absurd hpos (not_lt.mpr h)

theorem C2_amended_witness :
    processTransactions (fun _ => "2025-06-15")
        ([] ++ (⟨"refund", -500, "usd", 0, 0⟩ : BalanceTransaction) :: [])
      = processTransactions (fun _ => "2025-06-15") ([] ++ []) :=
  C2_amended_refund_no_delta _ [] [] _ (Or.inl rfl)

/-- The `try` body of `convertToPacificTime` never raises: it returns a
value, which is the current processing day's key whenever the input
timestamp is invalid, and which passes the YYYY-MM-DD format check whenever
the current processing day's key does. -/
theorem convertToPacificTimeBody_ok (pacificFormat : Int → String)
    (todayISO : String) (timestamp : Int) :
    ∃ s, convertToPacificTimeBody pacificFormat todayISO timestamp = Except.ok s ∧
      (dateIsValid timestamp = false → s = todayISO) ∧
      (isValidDateFormat todayISO = true → isValidDateFormat s = true) := by
  unfold convertToPacificTimeBody intlFormatPacific
  cases hv : dateIsValid timestamp with
  | false =>
    refine ⟨todayISO, by simp, fun _ => rfl, fun h => h⟩
  | true =>
    by_cases hf : isValidDateFormat (pacificFormat timestamp) = true
    · refine ⟨pacificFormat timestamp, by simp [hv, hf], ?_, fun _ => hf⟩
      intro h
      exact absurd h (by simp)
    · refine ⟨todayISO, by simp [hv, hf], fun _ => rfl, fun h => h⟩

/-- C7: the timezone normalizer never throws.  For every civil-calendar
function, every current-day key and every timestamp — including invalid
out-of-range ones — the `try`/`catch`-wrapped `convertToPacificTime` returns
`Except.ok` of a value; on an invalid timestamp that value is the current
processing day's key, and it always satisfies the YYYY-MM-DD shape whenever
the current day's key does. -/
theorem C7_normalizer_never_throws (pacificFormat : Int → String)
    (todayISO : String) (timestamp : Int) :
    convertToPacificTimeE pacificFormat todayISO timestamp
      = Except.ok (convertToPacificTime pacificFormat todayISO timestamp) ∧
    (dateIsValid timestamp = false →
      convertToPacificTime pacificFormat todayISO timestamp = todayISO) ∧
    (isValidDateFormat todayISO = true →
      isValidDateFormat (convertToPacificTime pacificFormat todayISO timestamp)
        = true) := by
  obtain ⟨s, hok, hinv, hfmt⟩ :=
    convertToPacificTimeBody_ok pacificFormat todayISO timestamp
  have ht : convertToPacificTime pacificFormat todayISO timestamp = s := by
    unfold convertToPacificTime
    rw [hok]
  refine ⟨?_, ?_, ?_⟩
  · unfold convertToPacificTimeE
    rw [hok, ht]
  · intro h
    rw [ht]
    exact hinv h
  · intro h
    rw [ht]
    exact hfmt h

theorem C7_witness :
    convertToPacificTime (fun _ => "2025-01-02") "2025-06-15" 8640000000001
      = "2025-06-15" ∧
    isValidDateFormat (convertToPacificTime (fun _ => "2025-01-02") "2025-06-15"
        8640000000001) = true := by
  have h := C7_normalizer_never_throws (fun _ => "2025-01-02") "2025-06-15"
    8640000000001
  exact ⟨h.2.1 (by decide), h.2.2 (by decide)⟩

/-- C8: for a non-empty combined series, the snapshot selection with
todayDateString computed from `now` by the normalizer returns the first
entry dated today with is_today = true when one exists, and otherwise the
series' last entry with is_today = false. -/
theorem C8_snapshot_selection (series : List CombinedRevenueData)
    (pacificFormat : Int → String) (todayISO : String) (now : Int)
    (hne : series ≠ []) :
    ((∃ e ∈ series, e.date = convertToPacificTime pacificFormat todayISO now) →
      ∃ e ∈ series,
        e.date = convertToPacificTime pacificFormat todayISO now ∧
        selectSnapshot series (convertToPacificTime pacificFormat todayISO now)
          = (some e, true)) ∧
    ((∀ e ∈ series, e.date ≠ convertToPacificTime pacificFormat todayISO now) →
      selectSnapshot series (convertToPacificTime pacificFormat todayISO now)
        = (series.getLast?, false) ∧
      ∃ l, series.getLast? = some l) := by
  constructor
  · intro h
    obtain ⟨x, hx, hxd⟩ := h
    have hsome : (series.find? (fun entry =>
        entry.date == convertToPacificTime pacificFormat todayISO now)).isSome :=
      List.find?_isSome.mpr ⟨x, hx, beq_iff_eq.mpr hxd⟩
    obtain ⟨e, hfind⟩ := Option.isSome_iff_exists.mp hsome
    have hp0 := List.find?_some hfind
    have hp : (e.date == convertToPacificTime pacificFormat todayISO now) = true := hp0
    refine ⟨e, List.mem_of_find?_eq_some hfind, beq_iff_eq.mp hp, ?_⟩
    unfold selectSnapshot
    rw [hfind]
    rfl
  · intro h
    have hnone : series.find? (fun entry =>
        entry.date == convertToPacificTime pacificFormat todayISO now) = none := by
      rw [List.find?_eq_none]
      intro x hx
      rw [Bool.not_eq_true, ← Bool.not_eq_true']
      simp only [Bool.not_eq_true']
      exact beq_eq_false_iff_ne.mpr (h x hx)
    constructor
    · unfold selectSnapshot
      rw [hnone]
      rfl
    · obtain ⟨l, hl⟩ := List.exists_mem_of_ne_nil series hne
    -- getLast? of a nonempty list is some
      cases hgl : series.getLast? with
      | none =>
        rw [List.getLast?_eq_none_iff] at hgl
        exact absurd hgl hne
      | some x => exact ⟨x, rfl⟩

theorem C8_snapshot_witness :
    selectSnapshot (combinedData histW icW [])
        (convertToPacificTime (fun _ => "2025-06-20") "2025-06-20" 0)
      = ((combinedData histW icW []).getLast?, false) := by
  have h := (C8_snapshot_selection (combinedData histW icW [])
      (fun _ => "2025-06-20") "2025-06-20" 0
      (by rw [combinedData_fixture]; exact List.cons_ne_nil _ _)).2 ?_
  · exact h.1
  · intro e he
    rw [combinedData_fixture] at he
    rcases List.mem_cons.mp he with rfl | he2
    · exact fun hcontra => by exact absurd hcontra (by decide)
    · rw [List.mem_singleton] at he2
      subst he2
      exact fun hcontra => by exact absurd hcontra (by decide)

end RevDash
